import Mathlib

/-!
Verification of the insertion-order-preserving dictionary engine and its
wrapper layer (RustPython `vm/src/obj/objdict.rs`, `vm/src/pyobjectrc.rs`).

The wrapper layer (`PyDict::popitem`, `PyDict::inner_cmp`, `DictIter::next`,
the forward and reverse iterators generated by the `dict_iterator` construct)
is embedded directly from `src/vm/src/obj/objdict.rs`.  The underlying engine
(`crate::dictdatatype::Dict`) is not part of the source tree that was
provided, so its operations are modelled from the specification, as marked on
each definition.
-/

namespace RPyDict

/-- Modelled from the spec: one record of the Entry Log — key handle, value
handle and liveness flag, kept at a fixed logical position in insertion order
(spec section 3, "Entry").  The stored hash and the Hash Index Table are the
amortized O(1) access path to the unique live entry with a given key (spec
invariants 2 and 4); lookups are modelled by their specified observable
result, a scan for the live entry whose key is equal to the probe key. -/
structure Entry (K V : Type) where
  key : K
  value : V
  live : Bool
deriving DecidableEq, Repr

/-- Modelled from the spec: the Map — Entry Log plus the Version Counter, a
structural-mutation counter snapshotted by iterators (spec section 3, "Map";
the live count and used-slot count are derived quantities here). -/
structure Dict (K V : Type) where
  entries : List (Entry K V)
  version : Nat
deriving DecidableEq, Repr

/-- Error kinds raised by the engine (spec section 7). -/
inductive DictError where
  | keyNotFound
  | emptyCollectionOnPop
deriving DecidableEq, Repr

/-- Error outcomes of an iterator step: the structural-change failure of the
snapshot check, ordinary exhaustion (`StopIteration`), and the panic of the
`.unwrap()` in the reverse iterator of `objdict.rs`. -/
inductive IterError where
  | structuralChangeDuringIteration
  | stopIteration
  | panicked
deriving DecidableEq, Repr

variable {K V : Type}

/-- The empty map: no entries, version counter zero. -/
def Dict.empty : Dict K V := ⟨[], 0⟩

/-- Modelled from the spec: live count of the map (`Dict::len`). -/
def Dict.len (d : Dict K V) : Nat :=
  d.entries.countP (·.live)

/-- Modelled from the spec: whether some live entry has the given key —
the observable outcome of the probe (spec invariants 2 and 4). -/
def Dict.containsLive [DecidableEq K] (d : Dict K V) (k : K) : Bool :=
  d.entries.any fun e => e.live && decide (e.key = k)

/-- Overwrite, in place, the value of the first live entry whose key is `k`
(the "match" arm of `insert`, spec section 4.1). -/
def overwriteValue [DecidableEq K] : List (Entry K V) → K → V → List (Entry K V)
  | [], _, _ => []
  | e :: rest, k, v =>
    if e.live && decide (e.key = k) then ⟨e.key, v, true⟩ :: rest
    else e :: overwriteValue rest k v

/-- Modelled from the spec: `insert(key, value)` (spec section 4.1) — on a
match, overwrite the existing entry value in place without bumping the
version counter; otherwise append a new live entry to the Entry Log and bump
the version counter. -/
def Dict.insert [DecidableEq K] (d : Dict K V) (k : K) (v : V) : Dict K V :=
  if d.containsLive k then ⟨overwriteValue d.entries k v, d.version⟩
  else ⟨d.entries ++ [⟨k, v, true⟩], d.version + 1⟩

/-- Mark the first live entry with key `k` dead (the tombstoning of
`delete`, spec section 4.2). -/
def killEntry [DecidableEq K] : List (Entry K V) → K → List (Entry K V)
  | [], _ => []
  | e :: rest, k =>
    if e.live && decide (e.key = k) then ⟨e.key, e.value, false⟩ :: rest
    else e :: killEntry rest k

/-- Modelled from the spec: `delete(key)` (spec sections 4.1 and 6) — mark
the matching entry dead and bump the version counter; fail with
`KeyNotFound` when the key is absent. -/
def Dict.delete [DecidableEq K] (d : Dict K V) (k : K) :
    Except DictError (Dict K V) :=
  if d.containsLive k then .ok ⟨killEntry d.entries k, d.version + 1⟩
  else .error .keyNotFound

/-- Modelled from the spec: `get(key)` (spec section 6) — the value of the
live entry matching the key, if any. -/
def Dict.get [DecidableEq K] (d : Dict K V) (k : K) : Option V :=
  (d.entries.find? fun e => e.live && decide (e.key = k)).map (·.value)

/-- Modelled from the spec: `pop(key)` (spec section 6) — returns `none`
rather than failing if the key is absent; deletion bumps the version. -/
def Dict.pop [DecidableEq K] (d : Dict K V) (k : K) : Option V × Dict K V :=
  if d.containsLive k then
    (d.get k, ⟨killEntry d.entries k, d.version + 1⟩)
  else (none, d)

/-- Modelled from the spec: `clear()` empties the map and bumps the version
counter (spec invariant 5). -/
def Dict.clear (d : Dict K V) : Dict K V :=
  ⟨[], d.version + 1⟩

/-- Scan from the tail of the Entry Log for the most recently inserted
still-live entry; mark it dead (spec section 4.2, `pop_most_recent`). -/
def popMostRecentAux : List (Entry K V) → Option (K × V × List (Entry K V))
  | [] => none
  | e :: rest =>
    match popMostRecentAux rest with
    | some (k, v, rest2) => some (k, v, e :: rest2)
    | none =>
      if e.live then some (e.key, e.value, ⟨e.key, e.value, false⟩ :: rest)
      else none

/-- Modelled from the spec: the engine operation called `pop_front` by the
wrapper in `objdict.rs`, specified as `pop_most_recent()` — removes and
returns the most recently inserted still-live entry, bumping the version
counter; `none` on a map with no live entry (spec section 4.2). -/
def Dict.pop_front (d : Dict K V) : Option (K × V × Dict K V) :=
  (popMostRecentAux d.entries).map fun p => (p.1, p.2.1, ⟨p.2.2, d.version + 1⟩)

/-- Scan the Entry Log forward from a logical position, skipping dead
entries (spec section 4.2, `next_live_entry`); returns the entry found and
the position to resume from. -/
def nextEntryAux : List (Entry K V) → Nat → Option (K × V × Nat)
  | [], _ => none
  | e :: rest, pos =>
    if e.live then some (e.key, e.value, pos + 1)
    else nextEntryAux rest (pos + 1)

/-- Modelled from the spec: `next_entry` / `next_live_entry(position)`
(spec sections 4.2 and 6). -/
def Dict.next_entry (d : Dict K V) (pos : Nat) : Option (K × V × Nat) :=
  nextEntryAux (d.entries.drop pos) pos

/-- Modelled from the spec: `length_from(position)` /
`len_from_entry_index` — count of live entries from a position to the end
(spec section 4.2). -/
def Dict.len_from_entry_index (d : Dict K V) (pos : Nat) : Nat :=
  (d.entries.drop pos).countP (·.live)

/-- Modelled from the spec: the snapshot captured by iterators — the
version counter together with the live size (spec sections 2, 3 and 4.4:
"captures a version/size snapshot at creation"). -/
structure DictSize where
  version : Nat
  len : Nat
deriving DecidableEq, Repr

/-- Modelled from the spec: `size() -> snapshot` (spec section 6). -/
def Dict.size (d : Dict K V) : DictSize :=
  ⟨d.version, d.len⟩

/-- Modelled from the spec: `has_structurally_changed(snapshot)` /
`has_changed_size` — any discrepancy between the current state and the
snapshot counts as a structural change (spec sections 4.4 and 6). -/
def Dict.has_changed_size (d : Dict K V) (s : DictSize) : Bool :=
  decide (d.size ≠ s)

/-- The currently-live `(key, value)` pairs of an Entry Log, in log order. -/
def livePairsOf (l : List (Entry K V)) : List (K × V) :=
  (l.filter (·.live)).map fun e => (e.key, e.value)

/-- The currently-live `(key, value)` pairs of a map, in Entry Log order. -/
def Dict.livePairs (d : Dict K V) : List (K × V) :=
  livePairsOf d.entries

/-- From `objdict.rs`: `PyDict::popitem` — delegates to the engine and turns
the empty case into the empty-collection error (surfaced there as the key
error "popitem(): dictionary is empty"). -/
def PyDict.popitem (d : Dict K V) : Except DictError ((K × V) × Dict K V) :=
  match d.pop_front with
  | some (k, v, d2) => .ok ((k, v), d2)
  | none => .error .emptyCollectionOnPop

/-- From `objdict.rs`: `PyDict::copy` — a fresh map structure whose entries
reference the same underlying handles. -/
def PyDict.copy (d : Dict K V) : Dict K V :=
  ⟨d.entries, d.version⟩

end RPyDict

namespace RPyDict

/- ### Basic lemmas about the Entry Log -/

theorem livePairsOf_nil : livePairsOf ([] : List (Entry K V)) = [] := rfl

theorem livePairsOf_cons (e : Entry K V) (l : List (Entry K V)) :
    livePairsOf (e :: l) =
      if e.live then (e.key, e.value) :: livePairsOf l else livePairsOf l := by
  by_cases h : e.live <;> simp [livePairsOf, List.filter_cons, h]

theorem len_eq_length_livePairs (d : Dict K V) :
    d.len = d.livePairs.length := by
  simp [Dict.len, Dict.livePairs, livePairsOf, List.length_map, List.countP_eq_length_filter]

/-- The tail scan of `pop_most_recent`: it finds exactly the last live pair
and kills it, leaving the earlier live pairs untouched. -/
theorem popMostRecentAux_spec (l : List (Entry K V)) :
    (popMostRecentAux l = none → livePairsOf l = []) ∧
    (∀ k v l2, popMostRecentAux l = some (k, v, l2) →
      livePairsOf l = livePairsOf l2 ++ [(k, v)]) := by
  induction l with
  | nil => exact ⟨fun _ => rfl, fun k v l2 h => by cases h⟩
  | cons e rest ih =>
    constructor
    · intro h
      rcases hr : popMostRecentAux rest with _ | p
      · simp only [popMostRecentAux, hr] at h
        by_cases he : e.live
        · simp [he] at h
        · simp [livePairsOf_cons, he, ih.1 hr]
      · simp [popMostRecentAux, hr] at h
    · intro k v l2 h
      rcases hr : popMostRecentAux rest with _ | p
      · simp only [popMostRecentAux, hr] at h
        by_cases he : e.live
        · simp only [he, if_true, Option.some.injEq, Prod.mk.injEq] at h
          obtain ⟨hk, hv, hl⟩ := h
          subst hk; subst hv; subst hl
          simp [livePairsOf_cons, he, ih.1 hr]
        · simp [he] at h
      · obtain ⟨p1, p2, p3⟩ := p
        simp only [popMostRecentAux, hr, Option.some.injEq, Prod.mk.injEq] at h
        obtain ⟨hk, hv, hl⟩ := h
        subst hk; subst hv; subst hl
        have := ih.2 p1 p2 p3 hr
        by_cases he : e.live <;>
          simp [livePairsOf_cons, he, this]

end RPyDict

namespace RPyDict

/- ### Concrete maps used throughout: built exactly as the spec examples do -/

/-- The map built by inserting a:1, b:2, c:3, in that order, into an empty
map. -/
def dABC : Dict String Nat :=
  ((Dict.empty.insert "a" 1).insert "b" 2).insert "c" 3

/-- The map built by inserting a:1, b:2, in that order, into an empty map. -/
def dAB : Dict String Nat :=
  (Dict.empty.insert "a" 1).insert "b" 2

example : dABC.livePairs = [("a", 1), ("b", 2), ("c", 3)] := by decide

example : dABC.version = 3 ∧ dABC.len = 3 := by decide

/- ### C1 / C8: popitem -/

/-- Claim C1: for every non-empty map, `PyDict::popitem` (the engine's
`pop_most_recent`) removes and returns the most recently inserted still-live
`(key, value)` pair, bumping the version counter; on the map built by
inserting a:1, b:2, c:3 in that order it returns `(c, 3)` and leaves exactly
`{a:1, b:2}` live. -/
theorem popitem_pops_most_recent :
    (∀ (K V : Type) (d : Dict K V), d.len ≠ 0 →
       ∃ p d2, PyDict.popitem d = Except.ok (p, d2) ∧
         Dict.livePairs d = Dict.livePairs d2 ++ [p] ∧
         d2.version = d.version + 1) ∧
    (∃ d2, PyDict.popitem dABC = Except.ok ((("c", 3) : String × Nat), d2) ∧
       Dict.livePairs d2 = [("a", 1), ("b", 2)]) := by
  constructor
  · intro K V d hlen
    rcases h : popMostRecentAux d.entries with _ | ⟨k, v, l2⟩
    · exact absurd (len_eq_length_livePairs d ▸ hlen)
        (by simp [Dict.livePairs, (popMostRecentAux_spec d.entries).1 h])
    · refine ⟨(k, v), ⟨l2, d.version + 1⟩, ?_, ?_, rfl⟩
      · simp [PyDict.popitem, Dict.pop_front, h]
      · exact (popMostRecentAux_spec d.entries).2 k v l2 h
  · exact ⟨⟨[⟨"a", 1, true⟩, ⟨"b", 2, true⟩, ⟨"c", 3, false⟩], 4⟩,
      rfl, rfl⟩

/-- Witness for C1 at the concrete map `{a:1, b:2, c:3}`. -/
theorem popitem_pops_most_recent_witness :
    ∃ p d2, PyDict.popitem dABC = Except.ok (p, d2) ∧
      Dict.livePairs dABC = Dict.livePairs d2 ++ [p] ∧
      d2.version = dABC.version + 1 :=
  popitem_pops_most_recent.1 String Nat dABC (by decide)

/-- Claim C8: `PyDict::popitem` on an empty map fails with the
empty-collection error (surfaced by the wrapper as a key error stating the
dictionary is empty): the engine returns no pair at all, so the map is left
unchanged. -/
theorem popitem_empty_fails :
    ∀ (K V : Type) (d : Dict K V), d.len = 0 →
      PyDict.popitem d = Except.error DictError.emptyCollectionOnPop ∧
      d.pop_front = none := by
  intro K V d hlen
  rcases h : popMostRecentAux d.entries with _ | ⟨k, v, l2⟩
  · constructor
    · simp [PyDict.popitem, Dict.pop_front, h]
    · simp [Dict.pop_front, h]
  · exfalso
    have hpairs := (popMostRecentAux_spec d.entries).2 k v l2 h
    have : d.livePairs.length = 0 := by
      rw [← len_eq_length_livePairs]; exact hlen
    rw [Dict.livePairs] at this
    simp [hpairs] at this

/-- Witness for C8 at the concrete empty map. -/
theorem popitem_empty_fails_witness :
    PyDict.popitem (Dict.empty : Dict String Nat) =
      Except.error DictError.emptyCollectionOnPop ∧
    (Dict.empty : Dict String Nat).pop_front = none :=
  popitem_empty_fails String Nat Dict.empty rfl

end RPyDict

namespace RPyDict

variable {K V : Type}

/- ### Iterators (embedded from objdict.rs) -/

/-- From `objdict.rs`: `DictIter` — the Rust-level iterator holding the map
and a cursor position, with no snapshot guard. -/
structure DictIter (K V : Type) where
  dict : Dict K V
  position : Nat

/-- From `objdict.rs`: `DictIter::next` — delegates to the engine's
`next_entry`, advancing the stored position. -/
def DictIter.next (it : DictIter K V) : Option ((K × V) × DictIter K V) :=
  match it.dict.next_entry it.position with
  | some (k, v, pos) => some ((k, v), ⟨it.dict, pos⟩)
  | none => none

/-- Run a `DictIter` to completion (with fuel, which `iterPairs` supplies in
sufficient quantity), collecting the pairs it yields. -/
def collectIter : Nat → DictIter K V → List (K × V)
  | 0, _ => []
  | fuel + 1, it =>
    match it.next with
    | some (kv, it2) => kv :: collectIter fuel it2
    | none => []

/-- The full sequence of pairs yielded by forward iteration over a map. -/
def Dict.iterPairs (d : Dict K V) : List (K × V) :=
  collectIter d.entries.length ⟨d, 0⟩

/-- `isize::MAX`, the sentinel stored by the reverse iterator on
exhaustion. -/
def isizeMax : Nat := 9223372036854775807

/-- From `objdict.rs`: the state of a guarded forward iterator
(`$iter_name` in the `dict_iterator` construct): the snapshot taken at
creation and the cursor position.  The map itself is shared and mutable, so
it is passed to each `next` call separately. -/
structure FwdIterState where
  size : DictSize
  position : Nat
deriving DecidableEq, Repr

/-- From `objdict.rs`: creation of a guarded forward iterator — snapshot
the map's size, start at position 0. -/
def fwdIterNew (d : Dict K V) : FwdIterState :=
  ⟨d.size, 0⟩

/-- From `objdict.rs`: `__next__` of a guarded forward iterator — first the
snapshot check (any discrepancy fails with the structural-change error),
then `next_entry`; the position is stored back only on success. -/
def fwdIterNext (d : Dict K V) (st : FwdIterState) :
    Except IterError (K × V) × FwdIterState :=
  if d.has_changed_size st.size then
    (.error .structuralChangeDuringIteration, st)
  else
    match d.next_entry st.position with
    | some (k, v, pos) => (.ok (k, v), ⟨st.size, pos⟩)
    | none => (.error .stopIteration, st)

/-- From `objdict.rs`: the state of a guarded reverse iterator
(`$reverse_iter_name` in the `dict_iterator` construct). -/
structure RevIterState where
  size : DictSize
  position : Nat
deriving DecidableEq, Repr

/-- From `objdict.rs`: creation of a guarded reverse iterator — snapshot
the size, start the consumed counter (stored in `position`) at 1. -/
def revIterNew (d : Dict K V) : RevIterState :=
  ⟨d.size, 1⟩

/-- From `objdict.rs`: `__next__` of a guarded reverse iterator — snapshot
check, then `count = position.fetch_add(1)` and
`len().checked_sub(count)`: on success the target is the live entry found
by `next_entry` from position `len - count` (the source unwraps there, so a
miss is a panic); on checked-sub failure the position is overwritten with
`isize::MAX` and `StopIteration` is raised. -/
def revIterNext (d : Dict K V) (st : RevIterState) :
    Except IterError (K × V) × RevIterState :=
  if d.has_changed_size st.size then
    (.error .structuralChangeDuringIteration, st)
  else
    let count := st.position
    if count ≤ d.len then
      match d.next_entry (d.len - count) with
      | some (k, v, _) => (.ok (k, v), ⟨st.size, count + 1⟩)
      | none => (.error .panicked, ⟨st.size, count + 1⟩)
    else
      (.error .stopIteration, ⟨st.size, isizeMax⟩)

/- ### The forward scan yields exactly the live pairs -/

theorem nextEntryAux_eq_none (l : List (Entry K V)) (p : Nat)
    (h : nextEntryAux l p = none) : livePairsOf l = [] := by
  induction l generalizing p with
  | nil => rfl
  | cons e rest ih =>
    by_cases he : e.live
    · simp [nextEntryAux, he] at h
    · simp only [nextEntryAux, he, if_false, Bool.false_eq_true] at h
      simp [livePairsOf_cons, he, ih (p + 1) h]

theorem nextEntryAux_eq_some (l : List (Entry K V)) (p : Nat) (k : K) (v : V)
    (q : Nat) (h : nextEntryAux l p = some (k, v, q)) :
    p < q ∧ q - p ≤ l.length ∧
      livePairsOf l = (k, v) :: livePairsOf (l.drop (q - p)) := by
  induction l generalizing p with
  | nil => cases h
  | cons e rest ih =>
    by_cases he : e.live
    · simp only [nextEntryAux, he, if_true, Option.some.injEq, Prod.mk.injEq] at h
      obtain ⟨hk, hv, hq⟩ := h
      subst hk; subst hv; subst hq
      refine ⟨Nat.lt_succ_self p, by simp, ?_⟩
      have hdrop : p + 1 - p = 1 := by omega
      simp [livePairsOf_cons, he, hdrop]
    · simp only [nextEntryAux, he, if_false, Bool.false_eq_true] at h
      obtain ⟨h1, h2, h3⟩ := ih (p + 1) h
      refine ⟨by omega, by simp; omega, ?_⟩
      have hdrop : q - p = (q - (p + 1)) + 1 := by omega
      rw [livePairsOf_cons]
      simp only [he, if_false, Bool.false_eq_true]
      rw [hdrop, List.drop_succ_cons]
      exact h3

/-- Collecting a `DictIter` from any position, given enough fuel, yields
exactly the live pairs of the Entry Log from that position on. -/
theorem collectIter_eq_livePairs (d : Dict K V) :
    ∀ (fuel pos : Nat), d.entries.length - pos ≤ fuel →
      collectIter fuel ⟨d, pos⟩ = livePairsOf (d.entries.drop pos) := by
  intro fuel
  induction fuel with
  | zero =>
    intro pos hle
    have : d.entries.drop pos = [] :=
      List.drop_eq_nil_of_le (by omega)
    simp [collectIter, this, livePairsOf]
  | succ fuel ih =>
    intro pos hle
    rcases h : d.next_entry pos with _ | ⟨k, v, q⟩
    · have hnone := nextEntryAux_eq_none _ _ h
      simp [collectIter, DictIter.next, h, hnone]
    · obtain ⟨h1, h2, h3⟩ := nextEntryAux_eq_some _ _ _ _ _ h
      have hq : d.entries.drop q = (d.entries.drop pos).drop (q - pos) := by
        rw [List.drop_drop]
        congr 1
        omega
      have hlen2 : d.entries.length - q ≤ fuel := by
        have := List.length_drop pos d.entries ▸ h2
        omega
      simp only [collectIter, DictIter.next, h]
      rw [ih q hlen2, hq, h3]

/-- Forward iteration via `next_entry` yields exactly the currently-live
pairs, in Entry Log order. -/
theorem iterPairs_eq_livePairs (d : Dict K V) :
    d.iterPairs = d.livePairs := by
  have := collectIter_eq_livePairs d d.entries.length 0 (by omega)
  simpa [Dict.iterPairs, Dict.livePairs] using this

end RPyDict

namespace RPyDict

variable {K V : Type}

/- ### Version-counter behavior of the mutating operations -/

theorem countP_overwriteValue [DecidableEq K] (l : List (Entry K V)) (k : K)
    (v : V) :
    (overwriteValue l k v).countP (·.live) = l.countP (·.live) := by
  induction l with
  | nil => rfl
  | cons e rest ih =>
    rw [overwriteValue]
    by_cases hc : (e.live && decide (e.key = k)) = true
    · rw [if_pos hc]
      have hc2 := hc
      simp only [Bool.and_eq_true, decide_eq_true_eq] at hc2
      simp [List.countP_cons, hc2.1]
    · rw [if_neg hc]
      simp [List.countP_cons, ih]

theorem insert_overwrite_version [DecidableEq K] (d : Dict K V) (k : K)
    (v : V) (h : d.containsLive k = true) :
    (d.insert k v).version = d.version := by
  simp [Dict.insert, h]

theorem insert_overwrite_size [DecidableEq K] (d : Dict K V) (k : K) (v : V)
    (h : d.containsLive k = true) :
    (d.insert k v).size = d.size := by
  simp [Dict.size, Dict.insert, h, Dict.len, countP_overwriteValue]

theorem insert_new_version [DecidableEq K] (d : Dict K V) (k : K) (v : V)
    (h : d.containsLive k = false) :
    (d.insert k v).version = d.version + 1 := by
  simp [Dict.insert, h]

end RPyDict

namespace RPyDict

/- ### C3: the snapshot check fails iteration after a structural change -/

/-- Claim C3: a forward iterator's `next` fails with the structural-change
error whenever a structural mutation (any version bump — for instance the
insert of a new key) happened between the snapshot and the call, regardless
of the cursor position; concretely, iterating over `{a:1, b:2}`, inserting
`c:3` and calling `next` a second time fails. -/
theorem forward_iter_detects_structural_change :
    (∀ (K V : Type) (d d2 : Dict K V) (st : FwdIterState),
       st.size = d.size → d2.version ≠ d.version →
       (fwdIterNext d2 st).1 =
         Except.error IterError.structuralChangeDuringIteration) ∧
    (∀ (K V : Type) [inst : DecidableEq K] (d : Dict K V) (k : K) (v : V)
       (pos : Nat), d.containsLive k = false →
       (fwdIterNext (d.insert k v) ⟨d.size, pos⟩).1 =
         Except.error IterError.structuralChangeDuringIteration) ∧
    ((fwdIterNext dAB (fwdIterNew dAB)).1 = Except.ok ("a", 1) ∧
     (fwdIterNext (dAB.insert "c" 3) (fwdIterNext dAB (fwdIterNew dAB)).2).1 =
       Except.error IterError.structuralChangeDuringIteration) := by
  refine ⟨?_, ?_, rfl, rfl⟩
  · intro K V d d2 st hst hver
    have hch : d2.has_changed_size st.size = true := by
      have : d2.size ≠ st.size := by
        rw [hst]
        intro hcontra
        exact hver (congrArg DictSize.version hcontra)
      simp [Dict.has_changed_size, this]
    simp [fwdIterNext, hch]
  · intro K V inst d k v pos h
    have hver : (d.insert k v).version ≠ d.version := by
      rw [insert_new_version d k v h]
      omega
    have hch : (d.insert k v).has_changed_size (d.size) = true := by
      have : (d.insert k v).size ≠ d.size := by
        intro hcontra
        exact hver (congrArg DictSize.version hcontra)
      simp [Dict.has_changed_size, this]
    simp [fwdIterNext, hch]

/-- Witness for C3: the snapshot of `{a:1, b:2}` is violated by the map
with `c:3` inserted, at cursor position 1. -/
theorem forward_iter_detects_structural_change_witness :
    (fwdIterNext (dAB.insert "c" 3)
        (⟨dAB.size, 1⟩ : FwdIterState)).1 =
      Except.error IterError.structuralChangeDuringIteration :=
  forward_iter_detects_structural_change.2.1 String Nat dAB "c" 3 1 (by decide)

end RPyDict

namespace RPyDict

/- ### C4: reverse iteration order on the three-entry map -/

/-- The reverse-iterator steps over `{a:1, b:2, c:3}`. -/
def rvStep1 : Except IterError (String × Nat) × RevIterState :=
  revIterNext dABC (revIterNew dABC)

def rvStep2 : Except IterError (String × Nat) × RevIterState :=
  revIterNext dABC rvStep1.2

def rvStep3 : Except IterError (String × Nat) × RevIterState :=
  revIterNext dABC rvStep2.2

def rvStep4 : Except IterError (String × Nat) × RevIterState :=
  revIterNext dABC rvStep3.2

/-- Claim C4: reverse iteration over the map built by inserting a:1, b:2,
c:3 in that order yields (c,3), (b,2), (a,1), in that order, and is then
exhausted. -/
theorem reverse_iteration_yields_most_recent_first :
    rvStep1.1 = Except.ok ("c", 3) ∧
    rvStep2.1 = Except.ok ("b", 2) ∧
    rvStep3.1 = Except.ok ("a", 1) ∧
    rvStep4.1 = Except.error IterError.stopIteration :=
  ⟨rfl, rfl, rfl, rfl⟩

/- ### C5: exhaustion of the reverse iterator is sticky — amended -/

/-- Claim C5 (amended): once a reverse iterator has reported exhaustion its
position holds the `isize::MAX` sentinel, and from then on no `next` call
ever yields an entry again, whatever has happened to the map; the call
reports exhaustion again whenever the map still matches the snapshot, and
fails with the structural-change error otherwise (see the counterexample
for why the original wording fails). -/
theorem reverse_iter_exhaustion_sticky :
    (∀ (K V : Type) (d : Dict K V) (st : RevIterState)
       (r : Except IterError (K × V)) (st2 : RevIterState),
       revIterNext d st = (r, st2) →
       r = Except.error IterError.stopIteration →
       st2.position = isizeMax) ∧
    (∀ (K V : Type) (d : Dict K V) (st : RevIterState),
       st.position = isizeMax → d.len < isizeMax →
       (∀ kv : K × V, (revIterNext d st).1 ≠ Except.ok kv) ∧
       (d.has_changed_size st.size = false →
         revIterNext d st =
           (Except.error IterError.stopIteration, ⟨st.size, isizeMax⟩))) := by
  constructor
  · intro K V d st r st2 h hr
    subst hr
    rw [revIterNext] at h
    by_cases hch : d.has_changed_size st.size = true
    · rw [if_pos hch] at h
      injection h with h1 h2
      cases h1
    · rw [if_neg hch] at h
      by_cases hcnt : st.position ≤ d.len
      · rw [if_pos hcnt] at h
        rcases hne : d.next_entry (d.len - st.position) with _ | ⟨k2, v2, q⟩
        · rw [hne] at h
          injection h with h1 h2
          cases h1
        · rw [hne] at h
          injection h with h1 h2
          cases h1
      · rw [if_neg hcnt] at h
        injection h with h1 h2
        rw [← h2]
  · intro K V d st hpos hlen
    have hgt : ¬ st.position ≤ d.len := by
      simp only [isizeMax] at hpos hlen
      omega
    constructor
    · intro kv h
      rw [revIterNext] at h
      by_cases hch : d.has_changed_size st.size = true
      · rw [if_pos hch] at h
        cases h
      · rw [if_neg hch, if_neg hgt] at h
        cases h
    · intro hch
      rw [revIterNext, if_neg (by simp [hch]), if_neg hgt]

/-- Witness for C5 (amended): the exhausted iterator over `{a:1, b:2, c:3}`
keeps reporting exhaustion while the map is unchanged. -/
theorem reverse_iter_exhaustion_sticky_witness :
    (∀ kv : String × Nat,
      (revIterNext dABC rvStep4.2).1 ≠ Except.ok kv) ∧
    (dABC.has_changed_size rvStep4.2.size = false →
      revIterNext dABC rvStep4.2 =
        (Except.error IterError.stopIteration, ⟨rvStep4.2.size, isizeMax⟩)) :=
  reverse_iter_exhaustion_sticky.2 String Nat dABC rvStep4.2 rfl (by decide)

/-- Counterexample to C5 as stated: after the reverse iterator over
`{a:1, b:2, c:3}` has reported exhaustion, inserting `d:4` makes the very
next `next` call fail with the structural-change error — it does not report
exhaustion, although it still yields no entry. -/
theorem reverse_iter_sticky_counterexample :
    rvStep4.1 = Except.error IterError.stopIteration ∧
    (revIterNext (dABC.insert "d" 4) rvStep4.2).1 =
      Except.error IterError.structuralChangeDuringIteration ∧
    (revIterNext (dABC.insert "d" 4) rvStep4.2).1 ≠
      Except.error IterError.stopIteration := by
  refine ⟨rfl, rfl, ?_⟩
  intro h
  rw [show (revIterNext (dABC.insert "d" 4) rvStep4.2).1 =
      Except.error IterError.structuralChangeDuringIteration from rfl] at h
  injection h with h2
  exact absurd h2 (by decide)

end RPyDict

namespace RPyDict

/- ### C6: value overwrite is not a structural mutation -/

/-- Claim C6: overwriting the value of an already-present key leaves the
version counter unchanged (and the whole iterator snapshot with it), so a
live iterator keeps working — it can never fail with the structural-change
error on the overwritten map; whereas insert-of-new-key, delete, pop,
popitem and clear all strictly increase the counter. -/
theorem overwrite_is_not_structural :
    ∀ (K V : Type) [inst : DecidableEq K] (d : Dict K V) (k : K) (v : V),
      (d.containsLive k = true →
        (d.insert k v).version = d.version ∧
        (d.insert k v).size = d.size ∧
        ∀ pos : Nat, (fwdIterNext (d.insert k v) ⟨d.size, pos⟩).1 ≠
          Except.error IterError.structuralChangeDuringIteration) ∧
      (d.containsLive k = false →
        (d.insert k v).version = d.version + 1) ∧
      (∀ d2, d.delete k = Except.ok d2 → d2.version = d.version + 1) ∧
      (d.containsLive k = true → ((d.pop k).2).version = d.version + 1) ∧
      (d.clear).version = d.version + 1 ∧
      (∀ p d2, PyDict.popitem d = Except.ok (p, d2) →
        d2.version = d.version + 1) := by
  intro K V inst d k v
  refine ⟨?_, insert_new_version d k v, ?_, ?_, rfl, ?_⟩
  · intro h
    refine ⟨insert_overwrite_version d k v h, insert_overwrite_size d k v h, ?_⟩
    intro pos hcontra
    have hch : (d.insert k v).has_changed_size (d.size) = false := by
      simp [Dict.has_changed_size, insert_overwrite_size d k v h]
    rw [fwdIterNext, if_neg (by simp [hch])] at hcontra
    rcases hne : (d.insert k v).next_entry pos with _ | ⟨k2, v2, q⟩
    · rw [hne] at hcontra
      injection hcontra with h1
      cases h1
    · rw [hne] at hcontra
      cases hcontra
  · intro d2 h
    rw [Dict.delete] at h
    by_cases hc : d.containsLive k = true
    · rw [if_pos hc] at h
      injection h with h1
      rw [← h1]
    · rw [if_neg hc] at h
      cases h
  · intro h
    simp [Dict.pop, h]
  · intro p d2 h
    rw [PyDict.popitem] at h
    rcases hm : popMostRecentAux d.entries with _ | ⟨k2, v2, l2⟩
    · rw [show d.pop_front = none by simp [Dict.pop_front, hm]] at h
      cases h
    · rw [show d.pop_front = some (k2, v2, ⟨l2, d.version + 1⟩)
          by simp [Dict.pop_front, hm]] at h
      injection h with h1
      injection h1 with h2 h3
      rw [← h3]

/-- Witness for C6: overwriting a:1 with a:9 in `{a:1, b:2}` keeps the
version; inserting the fresh key c bumps it. -/
theorem overwrite_is_not_structural_witness :
    (dAB.insert "a" 9).version = dAB.version ∧
    (dAB.insert "c" 3).version = dAB.version + 1 :=
  ⟨((overwrite_is_not_structural String Nat dAB "a" 9).1 (by decide)).1,
   (overwrite_is_not_structural String Nat dAB "c" 3).2.1 (by decide)⟩

end RPyDict

namespace RPyDict

variable {K V : Type}

/- ### C2: iteration order is first-insertion order -/

/-- A structural operation of the external interface: insert or delete. -/
inductive DictOp (K V : Type) where
  | ins (k : K) (v : V)
  | del (k : K)

/-- Apply one operation to a map; a delete of an absent key fails with
`KeyNotFound` and leaves the map unchanged. -/
def applyOp [DecidableEq K] (d : Dict K V) : DictOp K V → Dict K V
  | .ins k v => d.insert k v
  | .del k =>
    match d.delete k with
    | .ok d2 => d2
    | .error _ => d

/-- Apply a whole sequence of operations to the initially empty map. -/
def applyOps [DecidableEq K] (ops : List (DictOp K V)) : Dict K V :=
  ops.foldl applyOp Dict.empty

/-- The specification's own wording of the iteration order, as a second,
independent definition: the live pairs in the order of each key's first
insertion — an insert of a present key overwrites its value in place, an
insert of an absent key appends at the end, and a delete removes the pair,
so that deleting and re-inserting a key moves it to the end. -/
def specStep [DecidableEq K] (m : List (K × V)) : DictOp K V → List (K × V)
  | .ins k v =>
    if m.any fun p => decide (p.1 = k) then
      m.map fun p => if p.1 = k then (k, v) else p
    else m ++ [(k, v)]
  | .del k => m.filter fun p => !decide (p.1 = k)

/-- The specification's first-insertion-order model of a whole operation
sequence. -/
def specOrder [DecidableEq K] (ops : List (DictOp K V)) : List (K × V) :=
  ops.foldl specStep []

theorem any_key_iff (m : List (K × V)) [DecidableEq K] (k : K) :
    (m.any fun p => decide (p.1 = k)) = true ↔ k ∈ m.map Prod.fst := by
  simp only [List.any_eq_true, decide_eq_true_eq, List.mem_map]

theorem map_overwrite_of_not_mem [DecidableEq K] (m : List (K × V)) (k : K)
    (v : V) (h : k ∉ m.map Prod.fst) :
    (m.map fun p => if p.1 = k then (k, v) else p) = m := by
  induction m with
  | nil => rfl
  | cons p rest ih =>
    simp only [List.map_cons, List.mem_cons, not_or] at h ⊢
    have hp : p.1 ≠ k := fun hc => h.1 hc.symm
    rw [if_neg hp, ih h.2]

theorem filter_ne_of_not_mem [DecidableEq K] (m : List (K × V)) (k : K)
    (h : k ∉ m.map Prod.fst) :
    (m.filter fun p => !decide (p.1 = k)) = m := by
  induction m with
  | nil => rfl
  | cons p rest ih =>
    simp only [List.map_cons, List.mem_cons, not_or] at h
    have hp : p.1 ≠ k := fun hc => h.1 hc.symm
    simp only [List.filter_cons, hp, decide_False, Bool.not_false, if_true,
      ih h.2]

theorem keys_map_overwrite [DecidableEq K] (m : List (K × V)) (k : K)
    (v : V) :
    ((m.map fun p => if p.1 = k then (k, v) else p).map Prod.fst) =
      m.map Prod.fst := by
  induction m with
  | nil => rfl
  | cons p rest ih =>
    by_cases hp : p.1 = k
    · simp [hp, ih]
    · simp [hp, ih]

theorem containsLive_eq_any_livePairs [DecidableEq K] (d : Dict K V)
    (k : K) :
    d.containsLive k = (d.livePairs.any fun p => decide (p.1 = k)) := by
  rw [Dict.containsLive, Dict.livePairs]
  induction d.entries with
  | nil => rfl
  | cons e rest ih =>
    by_cases he : e.live
    · simp [livePairsOf_cons, he, List.any_cons, ih]
    · simp [livePairsOf_cons, he, List.any_cons, ih]

theorem livePairsOf_overwriteValue [DecidableEq K] (l : List (Entry K V))
    (k : K) (v : V) (hnd : ((livePairsOf l).map Prod.fst).Nodup) :
    livePairsOf (overwriteValue l k v) =
      (livePairsOf l).map fun p => if p.1 = k then (k, v) else p := by
  induction l with
  | nil => rfl
  | cons e rest ih =>
    rw [overwriteValue]
    by_cases hc : (e.live && decide (e.key = k)) = true
    · have hc2 := hc
      simp only [Bool.and_eq_true, decide_eq_true_eq] at hc2
      obtain ⟨he, hk⟩ := hc2
      subst hk
      rw [if_pos hc]
      have hnd2 : e.key ∉ (livePairsOf rest).map Prod.fst := by
        rw [livePairsOf_cons] at hnd
        simp only [he, if_true, List.map_cons, List.nodup_cons] at hnd
        exact hnd.1
      simp [livePairsOf_cons, he,
        map_overwrite_of_not_mem (livePairsOf rest) e.key v hnd2]
    · rw [if_neg hc]
      by_cases he : e.live = true
      · have hk : ¬ e.key = k := by
          intro hcontra
          exact hc (by simp [he, hcontra])
        have hnd2 : ((livePairsOf rest).map Prod.fst).Nodup := by
          rw [livePairsOf_cons] at hnd
          simp only [he, if_true, List.map_cons, List.nodup_cons] at hnd
          exact hnd.2
        simp [livePairsOf_cons, he, hk, ih hnd2]
      · have hnd2 : ((livePairsOf rest).map Prod.fst).Nodup := by
          rw [livePairsOf_cons] at hnd
          simp only [he, if_false] at hnd
          exact hnd
        simp [livePairsOf_cons, he, ih hnd2]

end RPyDict

namespace RPyDict

variable {K V : Type}

theorem livePairsOf_append (l1 l2 : List (Entry K V)) :
    livePairsOf (l1 ++ l2) = livePairsOf l1 ++ livePairsOf l2 := by
  simp [livePairsOf, List.filter_append]

theorem livePairsOf_killEntry [DecidableEq K] (l : List (Entry K V)) (k : K)
    (hnd : ((livePairsOf l).map Prod.fst).Nodup) :
    livePairsOf (killEntry l k) =
      (livePairsOf l).filter fun p => !decide (p.1 = k) := by
  induction l with
  | nil => rfl
  | cons e rest ih =>
    rw [killEntry]
    by_cases hc : (e.live && decide (e.key = k)) = true
    · have hc2 := hc
      simp only [Bool.and_eq_true, decide_eq_true_eq] at hc2
      obtain ⟨he, hk⟩ := hc2
      subst hk
      rw [if_pos hc]
      have hnd2 : e.key ∉ (livePairsOf rest).map Prod.fst := by
        rw [livePairsOf_cons] at hnd
        simp only [he, if_true, List.map_cons, List.nodup_cons] at hnd
        exact hnd.1
      simp [livePairsOf_cons, he,
        filter_ne_of_not_mem (livePairsOf rest) e.key hnd2]
    · rw [if_neg hc]
      by_cases he : e.live = true
      · have hk : ¬ e.key = k := by
          intro hcontra
          exact hc (by simp [he, hcontra])
        have hnd2 : ((livePairsOf rest).map Prod.fst).Nodup := by
          rw [livePairsOf_cons] at hnd
          simp only [he, if_true, List.map_cons, List.nodup_cons] at hnd
          exact hnd.2
        simp [livePairsOf_cons, he, hk, ih hnd2]
      · have hnd2 : ((livePairsOf rest).map Prod.fst).Nodup := by
          rw [livePairsOf_cons] at hnd
          simp only [he, if_false] at hnd
          exact hnd
        simp [livePairsOf_cons, he, ih hnd2]

/-- One step of the correspondence between the engine (acting on the Entry
Log) and the specification's first-insertion-order model. -/
theorem applyOp_correspondence [DecidableEq K] (d : Dict K V)
    (m : List (K × V)) (hm : d.livePairs = m)
    (hnd : (m.map Prod.fst).Nodup) (op : DictOp K V) :
    (applyOp d op).livePairs = specStep m op ∧
      ((specStep m op).map Prod.fst).Nodup := by
  cases op with
  | ins k v =>
    by_cases hc : d.containsLive k = true
    · have hany : (m.any fun p => decide (p.1 = k)) = true := by
        rw [← hm, ← containsLive_eq_any_livePairs]
        exact hc
      have hnd0 : ((livePairsOf d.entries).map Prod.fst).Nodup := by
        rw [show livePairsOf d.entries = m from hm]
        exact hnd
      constructor
      · rw [applyOp, Dict.insert, if_pos hc]
        show livePairsOf (overwriteValue d.entries k v) = _
        rw [livePairsOf_overwriteValue d.entries k v hnd0, specStep,
          if_pos hany]
        rw [show livePairsOf d.entries = m from hm]
      · rw [specStep, if_pos hany, keys_map_overwrite]
        exact hnd
    · have hc2 : d.containsLive k = false := by
        simpa using hc
      have hany : ¬ ((m.any fun p => decide (p.1 = k)) = true) := by
        rw [← hm, ← containsLive_eq_any_livePairs]
        simp [hc2]
      have hmem : k ∉ m.map Prod.fst := fun hk =>
        hany ((any_key_iff m k).mpr hk)
      constructor
      · rw [applyOp, Dict.insert, if_neg (by simp [hc2])]
        show livePairsOf (d.entries ++ [⟨k, v, true⟩]) = _
        rw [livePairsOf_append, specStep, if_neg hany,
          show livePairsOf d.entries = m from hm]
        rfl
      · rw [specStep, if_neg hany]
        simp [List.nodup_append, hnd, hmem]
  | del k =>
    have hsub : ((m.filter fun p => !decide (p.1 = k)).map Prod.fst).Nodup := by
      exact List.Nodup.sublist
        (List.Sublist.map Prod.fst (List.filter_sublist m)) hnd
    by_cases hc : d.containsLive k = true
    · have hnd0 : ((livePairsOf d.entries).map Prod.fst).Nodup := by
        rw [show livePairsOf d.entries = m from hm]
        exact hnd
      constructor
      · simp only [applyOp, Dict.delete, if_pos hc]
        show livePairsOf (killEntry d.entries k) = _
        rw [livePairsOf_killEntry d.entries k hnd0, specStep,
          show livePairsOf d.entries = m from hm]
      · exact hsub
    · have hc2 : d.containsLive k = false := by
        simpa using hc
      have hmem : k ∉ m.map Prod.fst := by
        intro hk
        have := (any_key_iff m k).mpr hk
        rw [← hm, ← containsLive_eq_any_livePairs] at this
        rw [hc2] at this
        cases this
      constructor
      · simp only [applyOp, Dict.delete, hc2, Bool.false_eq_true, if_false]
        rw [specStep, filter_ne_of_not_mem m k hmem]
        exact hm
      · exact hsub

/-- The correspondence, folded over a whole operation sequence. -/
theorem foldl_correspondence [DecidableEq K] (ops : List (DictOp K V)) :
    ∀ (d : Dict K V) (m : List (K × V)), d.livePairs = m →
      (m.map Prod.fst).Nodup →
      (ops.foldl applyOp d).livePairs = ops.foldl specStep m ∧
        ((ops.foldl specStep m).map Prod.fst).Nodup := by
  induction ops with
  | nil =>
    intro d m hm hnd
    exact ⟨hm, hnd⟩
  | cons op rest ih =>
    intro d m hm hnd
    obtain ⟨h1, h2⟩ := applyOp_correspondence d m hm hnd op
    simpa [List.foldl_cons] using ih (applyOp d op) (specStep m op) h1 h2

/-- Claim C2: for every sequence of insert and delete operations applied to
an initially empty map, forward iteration (driven by `next_entry`, as
`DictIter::next` does) yields exactly the currently-live pairs — hence the
currently-live keys — in the order given by the specification's
first-insertion-order model; in that model a key deleted and re-inserted
appears at its new, later position. -/
theorem forward_iteration_first_insertion_order :
    ∀ (K V : Type) [inst : DecidableEq K] (ops : List (DictOp K V)),
      (applyOps ops).iterPairs = specOrder ops ∧
      (applyOps ops).iterPairs.map Prod.fst =
        (specOrder ops).map Prod.fst := by
  intro K V inst ops
  have h := (foldl_correspondence ops Dict.empty [] rfl List.nodup_nil).1
  constructor
  · rw [iterPairs_eq_livePairs]
    exact h
  · rw [iterPairs_eq_livePairs]
    exact congrArg (List.map Prod.fst) h

/- A concrete check of the moves-to-the-end behavior: delete a, re-insert
a — it now iterates after b. -/
example :
    (applyOps [DictOp.ins "a" 1, DictOp.ins "b" 2, DictOp.del "a",
      DictOp.ins "a" 3]).iterPairs = [("b", 2), ("a", 3)] := by decide

end RPyDict

namespace RPyDict

variable {K V E : Type}

/- ### C7: a failing reentrant callback aborts the operation cleanly -/

/-- Modelled from the spec: the generic object key capability (spec section
4.3 and dictdatatype.rs, not under src/) — `equals` may run arbitrary
interpreted code and may fail; a failure must propagate unchanged and leave
the map as it was before the enclosing operation began (spec sections 4.1
and 7).  The probe scans the live entries, asking the callback about each
candidate, and reports the index of the match, `none`, or the first
callback failure. -/
def probeE (eq : K → K → Except E Bool) :
    List (Entry K V) → K → Except E (Option Nat)
  | [], _ => .ok none
  | e :: rest, k =>
    if e.live then
      match eq e.key k with
      | .error err => .error err
      | .ok true => .ok (some 0)
      | .ok false => (probeE eq rest k).map (Option.map (· + 1))
    else (probeE eq rest k).map (Option.map (· + 1))

/-- Replace the value of the entry at a log position. -/
def setValueAt : List (Entry K V) → Nat → V → List (Entry K V)
  | [], _, _ => []
  | e :: rest, 0, v => ⟨e.key, v, e.live⟩ :: rest
  | e :: rest, i + 1, v => e :: setValueAt rest i v

/-- Mark the entry at a log position dead. -/
def killAt : List (Entry K V) → Nat → List (Entry K V)
  | [], _ => []
  | e :: rest, 0 => ⟨e.key, e.value, false⟩ :: rest
  | e :: rest, i + 1 => e :: killAt rest i

/-- Modelled from the spec: `insert` with a fallible equality callback —
on a callback failure the operation aborts back to its pre-call state with
the failure propagated unchanged; otherwise it commits the overwrite or
append exactly as in section 4.1. -/
def Dict.insertE (eq : K → K → Except E Bool) (d : Dict K V) (k : K)
    (v : V) : Except E Unit × Dict K V :=
  match probeE eq d.entries k with
  | .error err => (.error err, d)
  | .ok (some i) => (.ok (), ⟨setValueAt d.entries i v, d.version⟩)
  | .ok none => (.ok (), ⟨d.entries ++ [⟨k, v, true⟩], d.version + 1⟩)

/-- Modelled from the spec: `delete` with a fallible equality callback; the
Bool result reports whether a matching entry was found and tombstoned (the
wrapper turns `false` into KeyNotFound). -/
def Dict.deleteE (eq : K → K → Except E Bool) (d : Dict K V) (k : K) :
    Except E Bool × Dict K V :=
  match probeE eq d.entries k with
  | .error err => (.error err, d)
  | .ok (some i) => (.ok true, ⟨killAt d.entries i, d.version + 1⟩)
  | .ok none => (.ok false, d)

/-- Modelled from the spec: `get` with a fallible equality callback. -/
def Dict.getE (eq : K → K → Except E Bool) (d : Dict K V) (k : K) :
    Except E (Option V) × Dict K V :=
  match probeE eq d.entries k with
  | .error err => (.error err, d)
  | .ok (some i) => (.ok ((d.entries.drop i).head?.map (·.value)), d)
  | .ok none => (.ok none, d)

/-- Claim C7: when the reentrant equality callback fails during an insert,
delete or get, that operation returns the callback's failure unchanged,
paired with the map in exactly its state from before the operation began —
no half-applied Entry Log mutation is visible. -/
theorem callback_failure_aborts_cleanly :
    ∀ (K V E : Type) (eq : K → K → Except E Bool) (d : Dict K V) (k : K)
      (v : V) (err : E),
      probeE eq d.entries k = Except.error err →
      Dict.insertE eq d k v = (Except.error err, d) ∧
      Dict.deleteE eq d k = (Except.error err, d) ∧
      Dict.getE eq d k = (Except.error err, d) := by
  intro K V E eq d k v err h
  refine ⟨?_, ?_, ?_⟩
  · rw [Dict.insertE, h]
  · rw [Dict.deleteE, h]
  · rw [Dict.getE, h]

/-- A callback that always fails, and a one-entry map, for the witness. -/
def eqAlwaysFails : Nat → Nat → Except Nat Bool :=
  fun _ _ => .error 7

def dOne : Dict Nat Nat := ⟨[⟨1, 10, true⟩], 1⟩

/-- Witness for C7: on a one-entry map with an always-failing equality
callback, insert, delete and get all abort with that failure and return the
untouched map. -/
theorem callback_failure_aborts_cleanly_witness :
    Dict.insertE eqAlwaysFails dOne 1 99 = (Except.error 7, dOne) ∧
    Dict.deleteE eqAlwaysFails dOne 1 = (Except.error 7, dOne) ∧
    Dict.getE eqAlwaysFails dOne 1 = (Except.error 7, dOne) :=
  callback_failure_aborts_cleanly Nat Nat Nat eqAlwaysFails dOne 1 99 7 rfl

end RPyDict

namespace RPyDict

/- ### C9: weak handles upgrade exactly while the object is alive -/

/-- Modelled from the spec: the reference-count state of one shared
ownership handle cell (spec section 4.5; the `PyRc`/`PyWeak` implementation
behind `pyobjectrc.rs` is `crate::common::rc`, not under src/).  The object
is alive while at least one strong holder remains. -/
structure RcCell where
  strong : Nat
  weak : Nat
deriving DecidableEq, Repr

/-- A fresh cell: one strong holder, no weak holders. -/
def RcCell.new : RcCell := ⟨1, 0⟩

/-- The object is alive while a strong holder remains (spec section 4.5). -/
def RcCell.isAlive (c : RcCell) : Bool := decide (0 < c.strong)

/-- Cloning a strong handle increments the strong count. -/
def RcCell.cloneStrong (c : RcCell) : RcCell := ⟨c.strong + 1, c.weak⟩

/-- Dropping a strong handle decrements the strong count; the object is
destroyed when the count reaches zero. -/
def RcCell.dropStrong (c : RcCell) : RcCell := ⟨c.strong - 1, c.weak⟩

/-- From `pyobjectrc.rs`: `PyObjectRc::downgrade` — produce a weak handle,
leaving the strong count untouched. -/
def PyObjectRc.downgrade (c : RcCell) : RcCell := ⟨c.strong, c.weak + 1⟩

/-- From `pyobjectrc.rs`: `PyObjectRc::upgrade_weak` — `weak.upgrade()`
yields a new strong handle only if the object is still alive, otherwise
cleanly yields nothing. -/
def PyObjectRc.upgrade_weak (c : RcCell) : Option RcCell :=
  if 0 < c.strong then some c.cloneStrong else none

/-- Claim C9: upgrading a weak handle yields a new strong handle (the
strong count grows by one) if and only if the underlying object is still
alive; once the object is destroyed the upgrade returns nothing, with no
error and no dangling handle. -/
theorem upgrade_weak_iff_alive :
    ∀ (c : RcCell),
      ((PyObjectRc.upgrade_weak c).isSome ↔ c.isAlive = true) ∧
      (0 < c.strong →
        PyObjectRc.upgrade_weak c = some ⟨c.strong + 1, c.weak⟩) ∧
      (c.strong = 0 → PyObjectRc.upgrade_weak c = none) := by
  intro c
  refine ⟨?_, ?_, ?_⟩
  · by_cases h : 0 < c.strong
    · simp [PyObjectRc.upgrade_weak, RcCell.isAlive, h]
    · simp [PyObjectRc.upgrade_weak, RcCell.isAlive, h]
  · intro h
    rw [PyObjectRc.upgrade_weak, if_pos h]
    rfl
  · intro h
    rw [PyObjectRc.upgrade_weak, if_neg (by omega)]

/-- Witness for C9: a live cell upgrades, a dead cell does not. -/
theorem upgrade_weak_iff_alive_witness :
    PyObjectRc.upgrade_weak ⟨2, 1⟩ = some ⟨3, 1⟩ ∧
    PyObjectRc.upgrade_weak ⟨0, 1⟩ = none :=
  ⟨(upgrade_weak_iff_alive ⟨2, 1⟩).2.1 (by decide),
   (upgrade_weak_iff_alive ⟨0, 1⟩).2.2 rfl⟩

end RPyDict

namespace RPyDict

variable {K V E : Type}

/- ### C10: dict equality short-circuits on object identity -/

/-- From `objdict.rs`: the loop body of `PyDict::inner_cmp` — for each
`(k, v1)` of the iterated map, look the key up in the other map; a missing
key decides `false`; `v1.is(&v2)` (the two handles are the same underlying
object, which under this embedding is equality of the handle values)
short-circuits to the next pair without invoking the value-equality
callback; otherwise, when comparing items, the possibly reentrant and
possibly failing `bool_eq` callback decides. -/
def cmpLoop [DecidableEq K] [DecidableEq V]
    (boolEq : V → V → Except E Bool) (zelf : Dict K V) :
    List (K × V) → Bool → Except E Bool
  | [], _ => .ok true
  | (k, v1) :: rest, item =>
    match zelf.get k with
    | none => .ok false
    | some v2 =>
      if v1 = v2 then cmpLoop boolEq zelf rest item
      else if item then
        match boolEq v1 v2 with
        | .error err => .error err
        | .ok b => if b then cmpLoop boolEq zelf rest item else .ok false
      else cmpLoop boolEq zelf rest item

/-- From `objdict.rs`: `PyDict::inner_cmp` for the equality operator (the
only comparison the `Comparable` impl forwards): maps of different lengths
compare unequal before any pair is visited; otherwise the pair of maps is
swapped so the iterated one is not the larger (a no-op for equal lengths,
kept for faithfulness) and the loop runs over its live pairs. -/
def PyDict.inner_cmp [DecidableEq K] [DecidableEq V]
    (boolEq : V → V → Except E Bool) (zelf other : Dict K V)
    (item : Bool) : Except E Bool :=
  if ¬ (zelf.len = other.len) then .ok false
  else
    let p := if zelf.len < other.len then (other, zelf) else (zelf, other)
    cmpLoop boolEq p.1 (Dict.livePairs p.2) item

theorem find_value_of_mem_livePairsOf [DecidableEq K]
    (l : List (Entry K V))
    (hnd : ((livePairsOf l).map Prod.fst).Nodup) (k : K) (v : V)
    (hmem : (k, v) ∈ livePairsOf l) :
    (l.find? fun e => e.live && decide (e.key = k)).map (·.value) =
      some v := by
  induction l with
  | nil => simp [livePairsOf] at hmem
  | cons e rest ih =>
    by_cases he : e.live = true
    · rw [livePairsOf_cons] at hmem hnd
      simp only [he, if_true] at hmem hnd
      rcases List.mem_cons.mp hmem with heq | hmem2
      · obtain ⟨hk, hv⟩ := Prod.mk.injEq k v e.key e.value ▸ heq
        have hc : (e.live && decide (e.key = k)) = true := by
          simp [he, hk]
        simp [List.find?_cons, hc, hv]
      · simp only [List.map_cons, List.nodup_cons] at hnd
        have hk : ¬ (e.key = k) := by
          intro hc
          apply hnd.1
          rw [hc]
          exact List.mem_map_of_mem Prod.fst hmem2
        have hc : (e.live && decide (e.key = k)) = false := by
          simp [hk]
        simp only [List.find?_cons, hc]
        exact ih hnd.2 hmem2
    · rw [livePairsOf_cons] at hmem hnd
      simp only [he, if_false] at hmem hnd
      have hc : (e.live && decide (e.key = k)) = false := by
        simp [he]
      simp only [List.find?_cons, hc]
      exact ih hnd hmem

/-- On a map whose live keys are distinct (spec invariant 4), every live
pair is found back by `get`. -/
theorem get_of_mem_livePairs [DecidableEq K] (d : Dict K V)
    (hnd : (d.livePairs.map Prod.fst).Nodup) :
    ∀ kv ∈ d.livePairs, d.get kv.1 = some kv.2 := by
  intro kv hmem
  exact find_value_of_mem_livePairsOf d.entries hnd kv.1 kv.2 hmem

theorem cmpLoop_all_found [DecidableEq K] [DecidableEq V]
    (boolEq : V → V → Except E Bool) (zelf : Dict K V)
    (l : List (K × V)) (item : Bool)
    (h : ∀ kv ∈ l, zelf.get kv.1 = some kv.2) :
    cmpLoop boolEq zelf l item = .ok true := by
  induction l with
  | nil => rfl
  | cons kv rest ih =>
    obtain ⟨k, v1⟩ := kv
    have hk := h (k, v1) (List.mem_cons_self _ _)
    rw [cmpLoop, hk]
    simp only [if_pos rfl]
    exact ih fun kv2 hkv2 => h kv2 (List.mem_cons_of_mem _ hkv2)

/-- Claim C10: `PyDict::inner_cmp` for equality short-circuits on object
identity — a key whose stored values in the two maps are the same
underlying object is accepted as matching with no value-equality callback
invoked (the statements hold for every callback, including one that always
fails); hence a map with distinct live keys compares equal to itself and to
its own shallow copy, whatever the callback does; and two maps of
different lengths compare unequal, again for every callback. -/
theorem dict_eq_shortcircuits_on_identity :
    ∀ (K V E : Type) [instK : DecidableEq K] [instV : DecidableEq V]
      (boolEq : V → V → Except E Bool),
      (∀ zelf other : Dict K V, zelf.len = other.len →
        (∀ kv ∈ other.livePairs, zelf.get kv.1 = some kv.2) →
        PyDict.inner_cmp boolEq zelf other true = Except.ok true) ∧
      (∀ d : Dict K V, (d.livePairs.map Prod.fst).Nodup →
        PyDict.inner_cmp boolEq d d true = Except.ok true ∧
        PyDict.inner_cmp boolEq d (PyDict.copy d) true = Except.ok true) ∧
      (∀ zelf other : Dict K V, zelf.len ≠ other.len →
        PyDict.inner_cmp boolEq zelf other true = Except.ok false) := by
  intro K V E instK instV boolEq
  have hmain : ∀ zelf other : Dict K V, zelf.len = other.len →
      (∀ kv ∈ other.livePairs, zelf.get kv.1 = some kv.2) →
      PyDict.inner_cmp boolEq zelf other true = Except.ok true := by
    intro zelf other hlen hfound
    rw [PyDict.inner_cmp, if_neg (by simp [hlen])]
    have hswap : ¬ (zelf.len < other.len) := by omega
    simp only [hswap, if_false]
    exact cmpLoop_all_found boolEq zelf other.livePairs true hfound
  refine ⟨hmain, ?_, ?_⟩
  · intro d hnd
    have hself := hmain d d rfl (get_of_mem_livePairs d hnd)
    exact ⟨hself, hself⟩
  · intro zelf other hlen
    rw [PyDict.inner_cmp, if_pos (by simpa using hlen)]

/-- A value-equality callback that always fails, for the C10 witness. -/
def valEqAlwaysFails : Nat → Nat → Except Nat Bool :=
  fun _ _ => .error 0

/-- Witness for C10: `{a:1, b:2}` equals itself even under an
always-failing value-equality callback (identity short-circuit), and
compares unequal to the three-entry map without the callback running. -/
theorem dict_eq_shortcircuits_on_identity_witness :
    PyDict.inner_cmp valEqAlwaysFails dAB dAB true = Except.ok true ∧
    PyDict.inner_cmp valEqAlwaysFails dAB dABC true = Except.ok false :=
  ⟨((dict_eq_shortcircuits_on_identity String Nat Nat valEqAlwaysFails).2.1
      dAB (by decide)).1,
   (dict_eq_shortcircuits_on_identity String Nat Nat valEqAlwaysFails).2.2
      dAB dABC (by decide)⟩

end RPyDict
